import Mathlib

set_option autoImplicit false

namespace Scim

/-- Decoded JSON value as produced by Go's encoding/json with UseNumber enabled:
null (also standing for an absent value, since both decode to the nil interface),
booleans, numbers kept as their literal text (json.Number), strings, arrays
(as []interface \x7b\x7d) and objects (as map[string]interface \x7b\x7d,
modelled as an association list with exact-case-unique keys). -/
inductive Value where
  | null : Value
  | bool : Bool → Value
  | num : String → Value
  | str : String → Value
  | arr : List Value → Value
  | obj : List (String × Value) → Value

/-- Embedding of the eight attributeType string constants. -/
inductive attributeType where
  | binary
  | boolean
  | complex
  | dateTime
  | decimal
  | integer
  | reference
  | string
  deriving DecidableEq

/-- Embedding of the attributeMutability string constants. -/
inductive attributeMutability where
  | immutable
  | readOnly
  | readWrite
  | writeOnly
  deriving DecidableEq

/-- Embedding of the attributeReturned string constants. -/
inductive attributeReturned where
  | always
  | default
  | never
  | request
  deriving DecidableEq

/-- Embedding of the attributeUniqueness string constants. -/
inductive attributeUniqueness where
  | global
  | none
  | server
  deriving DecidableEq

/-- Embedding of validationMode (read, write, replace). -/
inductive validationMode where
  | read
  | write
  | replace
  deriving DecidableEq

/-- Embedding of the Go struct `attribute` (the `attributes` field type is
`List Attribute`, mirroring `type attributes []attribute`); `attribute` is a
Lean keyword, hence the capitalised name. The field `Type` is likewise renamed
to `Typ`. An inductive is needed because the struct is recursive through
SubAttributes. -/
inductive Attribute where
  | mk
    (Name : String)
    (Typ : attributeType)
    (SubAttributes : List Attribute)
    (MultiValued : Bool)
    (Description : String)
    (Required : Bool)
    (CanonicalValues : List String)
    (CaseExact : Bool)
    (Mutability : attributeMutability)
    (Returned : attributeReturned)
    (Uniqueness : attributeUniqueness)
    (ReferenceTypes : List String)
    : Attribute

def Attribute.Name : Attribute → String
  | .mk n _ _ _ _ _ _ _ _ _ _ _ => n

def Attribute.Typ : Attribute → attributeType
  | .mk _ t _ _ _ _ _ _ _ _ _ _ => t

def Attribute.SubAttributes : Attribute → List Attribute
  | .mk _ _ s _ _ _ _ _ _ _ _ _ => s

def Attribute.MultiValued : Attribute → Bool
  | .mk _ _ _ m _ _ _ _ _ _ _ _ => m

def Attribute.Description : Attribute → String
  | .mk _ _ _ _ d _ _ _ _ _ _ _ => d

def Attribute.Required : Attribute → Bool
  | .mk _ _ _ _ _ r _ _ _ _ _ _ => r

def Attribute.CanonicalValues : Attribute → List String
  | .mk _ _ _ _ _ _ c _ _ _ _ _ => c

def Attribute.CaseExact : Attribute → Bool
  | .mk _ _ _ _ _ _ _ c _ _ _ _ => c

def Attribute.Mutability : Attribute → attributeMutability
  | .mk _ _ _ _ _ _ _ _ m _ _ _ => m

def Attribute.Returned : Attribute → attributeReturned
  | .mk _ _ _ _ _ _ _ _ _ r _ _ => r

def Attribute.Uniqueness : Attribute → attributeUniqueness
  | .mk _ _ _ _ _ _ _ _ _ _ u _ => u

def Attribute.ReferenceTypes : Attribute → List String
  | .mk _ _ _ _ _ _ _ _ _ _ _ r => r

@[simp]
theorem Attribute.sizeOf_SubAttributes_lt (a : Attribute) :
    sizeOf a.SubAttributes < sizeOf a := by
  cases a with
  | mk n t s m d r cv ce mu re u rt =>
    simp only [Attribute.SubAttributes, Attribute.mk.sizeOf_spec]
    omega

/-- Error kinds of the core, one per fmt.Errorf site, grouped by the error
taxonomy: requiredFieldMissing = "cannot find required value %s";
arrayExpected = "cannot convert %v to a slice"; emptyRequiredArray =
"required array is empty"; immutableFieldModified = "immutable field: %s";
typeMismatch = the four failed conversions ("cannot convert %v to type %s",
"cannot convert %v to a json.Number", "%s is not an integer value",
"cannot convert %v to type complex"); unsupportedType = "not
implemented/invalid type: %v"; duplicateKey = "duplicate key: %s". -/
inductive ValidationError where
  | requiredFieldMissing : String → ValidationError
  | arrayExpected : ValidationError
  | emptyRequiredArray : ValidationError
  | immutableFieldModified : String → ValidationError
  | typeMismatch : ValidationError
  | unsupportedType : ValidationError
  | duplicateKey : String → ValidationError
  deriving DecidableEq

/-- Values stored in a CoreAttributes map (map[string]interface \x7b\x7d):
either a raw decoded input value stored by validateSingular, or the
[]CoreAttributes slice stored by the multi-valued branch of
attribute.validate. -/
inductive CAValue where
  | raw : Value → CAValue
  | seq : List (List (String × CAValue)) → CAValue

/-- CoreAttributes, modelled as an association list with Go-map insertion
(overwrite in place, else append), so keys stay exact-case unique. -/
abbrev CoreAttributes := List (String × CAValue)

/-- Embedding of strings.ToLower (character-wise lowercasing, written over the
character list so that it evaluates by kernel reduction). -/
def strToLower (s : String) : String := ⟨s.data.map Char.toLower⟩

/-- Embedding of strings.EqualFold as used on attribute names and input keys:
equality of the lowercased strings. -/
def eqFold (a b : String) : Bool := strToLower a == strToLower b

/-- Embedding of strings.Contains for a single-character substring, as used on
the textual form of a json.Number. -/
def strContainsChar (s : String) (ch : Char) : Bool := s.data.contains ch

/-- Go-map assignment m[k] = v: replaces the binding in place if the key is
present, otherwise appends it. -/
def caInsert (m : CoreAttributes) (k : String) (v : CAValue) : CoreAttributes :=
  match m with
  | [] => [(k, v)]
  | (k', v') :: rest => if k' = k then (k, v) :: rest else (k', v') :: caInsert rest k v

/-- Merging one attribute's result into the accumulated CoreAttributes:
`for k, v := range attr \x7b coreAttributes[k] = v \x7d`. -/
def mergeCA (acc r : CoreAttributes) : CoreAttributes :=
  r.foldl (fun m kv => caInsert m kv.1 kv.2) acc

/-- Lookup of a key in a CoreAttributes map. -/
def caLookup (m : CoreAttributes) (k : String) : Option CAValue :=
  match m with
  | [] => Option.none
  | (k', v) :: rest => if k' = k then Option.some v else caLookup rest k

/-- The duplicate-detection scan of attributes.validate: iterate over the
object's entries; on a case-insensitive match of the attribute name, fail
with a duplicate-key error if a match was already found, otherwise record
the value as the hit. Returns the hit (nil when no key matched). -/
def scanHit (name : String) (fields : List (String × Value)) (found : Bool) (hit : Value) :
    Except ValidationError Value :=
  match fields with
  | [] => .ok hit
  | (k, v) :: rest =>
    if eqFold name k then
      if found then .error (.duplicateKey (strToLower k))
      else scanHit name rest true v
    else scanHit name rest found hit

/-- Scanning from the initial state: not found, hit = nil. -/
def findHit (fields : List (String × Value)) (name : String) : Except ValidationError Value :=
  scanHit name fields false .null

/-- Test for the nil interface value (`i == nil` in Go). -/
def Value.isNull : Value → Bool
  | .null => true
  | _ => false

/-- The shared tail of attribute.validateSingular: outside read mode, emit the
raw value under the attribute's name when Returned is always or default. -/
def emitSingular (a : Attribute) (i : Value) (mode : validationMode) :
    Except ValidationError CoreAttributes :=
  if mode ≠ .read ∧ (a.Returned = .always ∨ a.Returned = .default) then
    .ok [(a.Name, CAValue.raw i)]
  else
    .ok []

mutual

/-- Embedding of `func (a attribute) validate(i interface, mode validationMode)`. -/
def attributeValidate (a : Attribute) (i : Value) (mode : validationMode) :
    Except ValidationError CoreAttributes :=
  if i.isNull then
    if a.Required then .error (.requiredFieldMissing (strToLower a.Name))
    else .ok []
  else if a.MultiValued then
    match i with
    | .arr elems =>
      if elems.length = 0 ∧ a.Required then .error .emptyRequiredArray
      else
        match validateElems a elems mode with
        | .error e => .error e
        | .ok cas =>
          if mode ≠ .read then .ok [(a.Name, CAValue.seq cas)]
          else .ok []
    | _ => .error .arrayExpected
  else
    validateSingular a i mode
termination_by (sizeOf a, sizeOf i, 2)

/-- The element loop of the multi-valued branch of attribute.validate:
validate each element as a singular value, abort on the first error,
collect the per-element CoreAttributes in input order. -/
def validateElems (a : Attribute) (elems : List Value) (mode : validationMode) :
    Except ValidationError (List CoreAttributes) :=
  match elems with
  | [] => .ok []
  | x :: rest =>
    match validateSingular a x mode with
    | .error e => .error e
    | .ok ca =>
      match validateElems a rest mode with
      | .error e => .error e
      | .ok cas => .ok (ca :: cas)
termination_by (sizeOf a, sizeOf elems, 1)

/-- Embedding of `func (a attribute) validateSingular(i interface, mode validationMode)`. -/
def validateSingular (a : Attribute) (i : Value) (mode : validationMode) :
    Except ValidationError CoreAttributes :=
  if mode = .replace ∧ a.Mutability = .immutable then
    .error (.immutableFieldModified a.Name)
  else if mode = .replace ∧ a.Mutability = .readOnly then
    .ok []
  else
    match a.Typ with
    | .boolean =>
      match i with
      | .bool _ => emitSingular a i mode
      | _ => .error .typeMismatch
    | .complex =>
      match attributesValidate a.SubAttributes i mode with
      | .error e => .error e
      | .ok _ => emitSingular a i mode
    | .string =>
      match i with
      | .str _ => emitSingular a i mode
      | _ => .error .typeMismatch
    | .reference =>
      match i with
      | .str _ => emitSingular a i mode
      | _ => .error .typeMismatch
    | .integer =>
      match i with
      | .num n =>
        if strContainsChar n '.' ∨ strContainsChar n 'e' then .error .typeMismatch
        else emitSingular a i mode
      | _ => .error .typeMismatch
    | _ => .error .unsupportedType
termination_by (sizeOf a, sizeOf i, 0)

/-- Embedding of `func (as attributes) validate(i interface, mode validationMode)`:
the input must be an object, then the per-attribute loop runs over the
declared attributes with an initially empty accumulator. -/
def attributesValidate (as : List Attribute) (i : Value) (mode : validationMode) :
    Except ValidationError CoreAttributes :=
  match i with
  | .obj c => attributesLoop as c mode []
  | _ => .error .typeMismatch
termination_by (sizeOf as, sizeOf i, 1)

/-- The per-attribute loop of attributes.validate: find the (unique)
case-insensitive hit for the attribute's name, validate it, and outside read
mode merge the emitted entries into the accumulator. -/
def attributesLoop (as : List Attribute) (c : List (String × Value)) (mode : validationMode)
    (acc : CoreAttributes) : Except ValidationError CoreAttributes :=
  match as with
  | [] => .ok acc
  | a :: rest =>
    match findHit c a.Name with
    | .error e => .error e
    | .ok hit =>
      match attributeValidate a hit mode with
      | .error e => .error e
      | .ok r =>
        attributesLoop rest c mode (if mode ≠ .read then mergeCA acc r else acc)
termination_by (sizeOf as, sizeOf c, 0)

end

/-- Embedding of the Go struct `schema`. -/
structure schema where
  ID : String
  Name : String
  Description : String
  Attributes : List Attribute

/-- Embedding of `func (s schema) validate(raw []byte, mode validationMode)`,
after the JSON decode step (the input is the already-decoded Value). -/
def schemaValidate (s : schema) (i : Value) (mode : validationMode) :
    Except ValidationError CoreAttributes :=
  attributesValidate s.Attributes i mode

/-- One iteration of the attributes.validate loop for a single declared
attribute: the duplicate-checking key scan followed by attribute.validate on
the hit. -/
def attrStep (a : Attribute) (c : List (String × Value)) (mode : validationMode) :
    Except ValidationError CoreAttributes :=
  match findHit c a.Name with
  | .error e => .error e
  | .ok hit => attributeValidate a hit mode

mutual

/-- Re-serialization of a stored CoreAttributes value back to a decoded JSON
value (json.Marshal followed by the UseNumber decode): raw values are kept,
a []CoreAttributes slice becomes an array of objects. -/
def cavToValue : CAValue → Value
  | .raw v => v
  | .seq xs => .arr (seqObjs xs)

/-- Re-serialization of a list of CoreAttributes maps to JSON array elements. -/
def seqObjs : List (List (String × CAValue)) → List Value
  | [] => []
  | m :: rest => .obj (caFields m) :: seqObjs rest

/-- Re-serialization of the entries of a CoreAttributes map to object fields. -/
def caFields : List (String × CAValue) → List (String × Value)
  | [] => []
  | (k, v) :: rest => (k, cavToValue v) :: caFields rest

end

/-- Re-serialization of a whole CoreAttributes map as a JSON object. -/
def caToValue (m : CoreAttributes) : Value := .obj (caFields m)

/-- Shape of an input value accepted by the type switch of validateSingular
for the attribute's declared type (the native-representation checks). -/
def typeShapeOK (a : Attribute) (i : Value) : Prop :=
  match a.Typ with
  | .boolean => ∃ b, i = .bool b
  | .complex => ∃ fs, i = .obj fs
  | .string => ∃ s, i = .str s
  | .reference => ∃ s, i = .str s
  | .integer => ∃ n, i = .num n
  | _ => False

/-- Shape of a value stored in the output mapping for a declared attribute:
multi-valued attributes store an ordered sequence of per-element mappings,
each empty or the singleton binding of the attribute's name to the raw
element; singular attributes store the raw input value, whose shape matches
the declared type. -/
def valueShape (b : Attribute) (v : CAValue) : Prop :=
  (b.MultiValued = true ∧ ∃ cas, v = CAValue.seq cas ∧
    ∀ e ∈ cas, e = [] ∨ ∃ w, e = [(b.Name, CAValue.raw w)]) ∨
  (b.MultiValued = false ∧ ∃ w, v = CAValue.raw w ∧ typeShapeOK b w)

/-- The full success condition of the type switch of validateSingular for a
present singular value: the native representation matches the declared type,
a complex value passes the sub-attribute structural validation, and an
integer literal has no dot and no lowercase exponent marker. -/
def singularTypeOK (a : Attribute) (i : Value) (mode : validationMode) : Prop :=
  match a.Typ with
  | .boolean => ∃ b, i = .bool b
  | .complex => ∃ S, attributesValidate a.SubAttributes i mode = .ok S
  | .string => ∃ s, i = .str s
  | .reference => ∃ s, i = .str s
  | .integer => ∃ n, i = .num n ∧ strContainsChar n '.' = false ∧ strContainsChar n 'e' = false
  | _ => False

/-- Pairwise case-insensitive distinctness of declared attribute names
(the data-model invariant of one Attributes collection). -/
def distinctFold (as : List Attribute) : Prop :=
  List.Pairwise (fun x y => eqFold x.Name y.Name = false) as

/-- Number of object keys that case-insensitively match a name. -/
def countMatches (c : List (String × Value)) (name : String) : Nat :=
  (c.filter (fun p => eqFold name p.1)).length

/-- Helper to build an Attribute with the fields irrelevant to validation
left at their zero values. -/
def mkAttr (name : String) (t : attributeType) (subs : List Attribute)
    (multi req : Bool) (mu : attributeMutability) (ret : attributeReturned) : Attribute :=
  .mk name t subs multi "" req [] false mu ret .none []

/-- Concrete required string attribute of the spec's concrete scenario. -/
def userNameAttr : Attribute := mkAttr "userName" .string [] false true .readWrite .default

/-- Concrete multi-valued string attribute with Returned never. -/
def neverMultiAttr : Attribute := mkAttr "a" .string [] true false .readWrite .never

/-- Concrete optional multi-valued string attribute with Returned default. -/
def optMultiAttr : Attribute := mkAttr "a" .string [] true false .readWrite .default

/-- Concrete required multi-valued string attribute with Returned default. -/
def reqMultiAttr : Attribute := mkAttr "a" .string [] true true .readWrite .default

/-- Concrete singular integer attribute. -/
def intAttr : Attribute := mkAttr "n" .integer [] false false .readWrite .default

/-- Concrete immutable singular string attribute. -/
def immutableAttr : Attribute := mkAttr "m" .string [] false false .immutable .default

/-- Concrete singular complex attribute with one sub-attribute that is never
returned. -/
def complexAttr : Attribute :=
  mkAttr "c" .complex [mkAttr "b" .string [] false false .readWrite .never]
    false false .readWrite .default

/-- Concrete required singular string attribute with Returned never. -/
def neverRequiredAttr : Attribute := mkAttr "a" .string [] false true .readWrite .never

/-- Concrete decimal-typed attribute (one of the unimplemented types). -/
def decimalAttr : Attribute := mkAttr "d" .decimal [] false false .readWrite .default

/-- Concrete decimal-typed attribute with readOnly mutability. -/
def decimalReadOnlyAttr : Attribute := mkAttr "d" .decimal [] false false .readOnly .default

/-- Concrete decimal-typed attribute with immutable mutability. -/
def decimalImmutableAttr : Attribute := mkAttr "d" .decimal [] false false .immutable .default

/-- Concrete schema with the single required userName attribute. -/
def userSchema : schema :=
  { ID := "urn:x:User", Name := "User", Description := "", Attributes := [userNameAttr] }

/-- Concrete schema with one required, never-returned string attribute. -/
def neverRequiredSchema : schema :=
  { ID := "urn:x:S", Name := "S", Description := "", Attributes := [neverRequiredAttr] }

theorem eqFold_refl (s : String) : eqFold s s = true := by
  simp [eqFold]

theorem ne_of_eqFold_false {x y : String} (h : eqFold x y = false) : x ≠ y := by
  intro he
  subst he
  rw [eqFold_refl] at h
  exact Bool.noConfusion h

theorem caInsert_fresh {m : CoreAttributes} {k : String} (v : CAValue)
    (h : k ∉ m.map Prod.fst) : caInsert m k v = m ++ [(k, v)] := by
  induction m with
  | nil => rfl
  | cons kv rest ih =>
    simp only [List.map_cons, List.mem_cons] at h
    push_neg at h
    obtain ⟨h1, h2⟩ := h
    cases kv with
    | mk k' v' =>
      simp only [caInsert]
      rw [if_neg (fun he => h1 he.symm), ih h2]
      rfl

theorem mergeCA_nil (acc : CoreAttributes) : mergeCA acc [] = acc := rfl

theorem mergeCA_single (acc : CoreAttributes) (k : String) (v : CAValue) :
    mergeCA acc [(k, v)] = caInsert acc k v := rfl

theorem mem_caInsert {kv : String × CAValue} {m : CoreAttributes} {k : String} {v : CAValue}
    (h : kv ∈ caInsert m k v) : kv ∈ m ∨ kv = (k, v) := by
  induction m with
  | nil =>
    simp only [caInsert, List.mem_singleton] at h
    exact Or.inr h
  | cons kv' rest ih =>
    cases kv' with
    | mk k' v' =>
      simp only [caInsert] at h
      by_cases he : k' = k
      · rw [if_pos he] at h
        rcases List.mem_cons.mp h with h | h
        · exact Or.inr h
        · exact Or.inl (List.mem_cons_of_mem _ h)
      · rw [if_neg he] at h
        rcases List.mem_cons.mp h with h | h
        · exact Or.inl (h ▸ List.mem_cons_self _ _)
        · rcases ih h with h | h
          · exact Or.inl (List.mem_cons_of_mem _ h)
          · exact Or.inr h

theorem mem_mergeCA {kv : String × CAValue} {acc r : CoreAttributes}
    (h : kv ∈ mergeCA acc r) : kv ∈ acc ∨ kv ∈ r := by
  induction r generalizing acc with
  | nil => exact Or.inl h
  | cons kv' rest ih =>
    have : mergeCA acc (kv' :: rest) = mergeCA (caInsert acc kv'.1 kv'.2) rest := rfl
    rw [this] at h
    rcases ih h with h | h
    · rcases mem_caInsert h with h | h
      · exact Or.inl h
      · right
        rw [h]
        exact List.mem_cons_self _ _
    · exact Or.inr (List.mem_cons_of_mem _ h)

theorem scanHit_nomatch {name : String} {fields : List (String × Value)}
    (found : Bool) (hit : Value) (h : ∀ p ∈ fields, eqFold name p.1 = false) :
    scanHit name fields found hit = .ok hit := by
  induction fields with
  | nil => rfl
  | cons p rest ih =>
    cases p with
    | mk k v =>
      simp only [scanHit]
      rw [if_neg]
      · exact ih (fun q hq => h q (List.mem_cons_of_mem _ hq))
      · have := h (k, v) (List.mem_cons_self _ _)
        simp only at this
        simp [this]

theorem findHit_none {name : String} {fields : List (String × Value)}
    (h : ∀ p ∈ fields, eqFold name p.1 = false) :
    findHit fields name = .ok .null :=
  scanHit_nomatch false .null h

theorem scanHit_append_skip {name : String} {pre rest : List (String × Value)}
    (found : Bool) (hit : Value) (h : ∀ p ∈ pre, eqFold name p.1 = false) :
    scanHit name (pre ++ rest) found hit = scanHit name rest found hit := by
  induction pre with
  | nil => rfl
  | cons p pre' ih =>
    cases p with
    | mk k v =>
      simp only [List.cons_append, scanHit]
      rw [if_neg]
      · exact ih (fun q hq => h q (List.mem_cons_of_mem _ hq))
      · have := h (k, v) (List.mem_cons_self _ _)
        simp only at this
        simp [this]

theorem findHit_one {name k : String} {v : Value} {pre post : List (String × Value)}
    (hpre : ∀ p ∈ pre, eqFold name p.1 = false) (hk : eqFold name k = true)
    (hpost : ∀ p ∈ post, eqFold name p.1 = false) :
    findHit (pre ++ (k, v) :: post) name = .ok v := by
  unfold findHit
  rw [scanHit_append_skip false .null hpre]
  simp only [scanHit]
  rw [if_pos hk]
  exact scanHit_nomatch true v hpost

theorem scanHit_ok_prov {name : String} {fields : List (String × Value)}
    {found : Bool} {hit v : Value}
    (h : scanHit name fields found hit = .ok v) :
    v = hit ∨ ∃ p ∈ fields, eqFold name p.1 = true ∧ p.2 = v := by
  induction fields generalizing found hit with
  | nil =>
    simp only [scanHit, Except.ok.injEq] at h
    exact Or.inl h.symm
  | cons p rest ih =>
    cases p with
    | mk k w =>
      simp only [scanHit] at h
      by_cases hm : eqFold name k = true
      · rw [if_pos hm] at h
        cases found with
        | true => simp at h
        | false =>
          rcases ih h with h | h
          · exact Or.inr ⟨(k, w), List.mem_cons_self _ _, hm, h.symm⟩
          · obtain ⟨q, hq, hq2⟩ := h
            exact Or.inr ⟨q, List.mem_cons_of_mem _ hq, hq2⟩
      · rw [if_neg hm] at h
        rcases ih h with h | h
        · exact Or.inl h
        · obtain ⟨q, hq, hq2⟩ := h
          exact Or.inr ⟨q, List.mem_cons_of_mem _ hq, hq2⟩

theorem findHit_ok_prov {name : String} {fields : List (String × Value)} {v : Value}
    (h : findHit fields name = .ok v) :
    v = .null ∨ ∃ p ∈ fields, eqFold name p.1 = true ∧ p.2 = v :=
  scanHit_ok_prov h

theorem scanHit_dup {name : String} {fields : List (String × Value)}
    {found : Bool} {hit : Value}
    (h : (found = true ∧ 1 ≤ countMatches fields name) ∨ 2 ≤ countMatches fields name) :
    ∃ k, scanHit name fields found hit = .error (.duplicateKey k) := by
  induction fields generalizing found hit with
  | nil =>
    simp only [countMatches, List.filter_nil, List.length_nil] at h
    rcases h with ⟨_, h⟩ | h <;> omega
  | cons p rest ih =>
    cases p with
    | mk k w =>
      by_cases hm : eqFold name k = true
      · simp only [scanHit, if_pos hm]
        cases found with
        | true => exact ⟨strToLower k, rfl⟩
        | false =>
          apply ih
          left
          refine ⟨rfl, ?_⟩
          rcases h with ⟨hf, _⟩ | h
          · exact absurd hf (by simp)
          · simp only [countMatches, List.filter_cons, hm, if_pos] at h
            simp only [List.length_cons] at h
            simp only [countMatches]
            omega
      · simp only [scanHit, if_neg hm]
        apply ih
        have hcount : countMatches ((k, w) :: rest) name = countMatches rest name := by
          simp only [countMatches, List.filter_cons]
          simp only at hm
          simp [hm]
        rw [hcount] at h
        exact h

theorem findHit_dup {name : String} {fields : List (String × Value)}
    (h : 2 ≤ countMatches fields name) :
    ∃ k, findHit fields name = .error (.duplicateKey k) :=
  scanHit_dup (Or.inr h)

theorem emitSingular_ok_char {a : Attribute} {i : Value} {mode : validationMode}
    {r : CoreAttributes} (h : emitSingular a i mode = .ok r) :
    r = [] ∨ (r = [(a.Name, CAValue.raw i)] ∧ mode ≠ .read ∧
      (a.Returned = .always ∨ a.Returned = .default)) := by
  unfold emitSingular at h
  split_ifs at h with hc
  · simp only [Except.ok.injEq] at h
    exact Or.inr ⟨h.symm, hc.1, hc.2⟩
  · simp only [Except.ok.injEq] at h
    exact Or.inl h.symm

theorem emitSingular_empty_char {a : Attribute} {i : Value} {mode : validationMode}
    (h : emitSingular a i mode = .ok []) (hm : mode ≠ .read) :
    a.Returned ≠ .always ∧ a.Returned ≠ .default := by
  unfold emitSingular at h
  split_ifs at h with hc
  · simp at h
  · constructor
    · intro hr
      exact hc ⟨hm, Or.inl hr⟩
    · intro hr
      exact hc ⟨hm, Or.inr hr⟩

theorem attributesValidate_ok_obj {as : List Attribute} {i : Value} {mode : validationMode}
    {M : CoreAttributes} (h : attributesValidate as i mode = .ok M) :
    ∃ fs, i = .obj fs ∧ attributesLoop as fs mode [] = .ok M := by
  rw [attributesValidate.eq_def] at h
  cases i <;> simp only at h <;> first
    | exact absurd h (by simp)
    | exact ⟨_, rfl, h⟩

theorem validateSingular_unfold (a : Attribute) (i : Value) (mode : validationMode) :
    validateSingular a i mode =
      if mode = .replace ∧ a.Mutability = .immutable then
        .error (.immutableFieldModified a.Name)
      else if mode = .replace ∧ a.Mutability = .readOnly then
        .ok []
      else
        match a.Typ, i with
        | .boolean, .bool _ => emitSingular a i mode
        | .boolean, _ => .error .typeMismatch
        | .complex, _ =>
          match attributesValidate a.SubAttributes i mode with
          | .error e => .error e
          | .ok _ => emitSingular a i mode
        | .string, .str _ => emitSingular a i mode
        | .string, _ => .error .typeMismatch
        | .reference, .str _ => emitSingular a i mode
        | .reference, _ => .error .typeMismatch
        | .integer, .num n =>
          if strContainsChar n '.' ∨ strContainsChar n 'e' then .error .typeMismatch
          else emitSingular a i mode
        | .integer, _ => .error .typeMismatch
        | _, _ => .error .unsupportedType := by
  cases i <;> cases hT : a.Typ <;> simp only [validateSingular, hT]

theorem typeShapeOK_boolean {a : Attribute} (h : a.Typ = .boolean) (b : Bool) :
    typeShapeOK a (.bool b) := by
  unfold typeShapeOK
  rw [h]
  exact ⟨b, rfl⟩

theorem typeShapeOK_complex {a : Attribute} (h : a.Typ = .complex)
    (fs : List (String × Value)) : typeShapeOK a (.obj fs) := by
  unfold typeShapeOK
  rw [h]
  exact ⟨fs, rfl⟩

theorem typeShapeOK_string {a : Attribute} (h : a.Typ = .string) (s : String) :
    typeShapeOK a (.str s) := by
  unfold typeShapeOK
  rw [h]
  exact ⟨s, rfl⟩

theorem typeShapeOK_reference {a : Attribute} (h : a.Typ = .reference) (s : String) :
    typeShapeOK a (.str s) := by
  unfold typeShapeOK
  rw [h]
  exact ⟨s, rfl⟩

theorem typeShapeOK_integer {a : Attribute} (h : a.Typ = .integer) (n : String) :
    typeShapeOK a (.num n) := by
  unfold typeShapeOK
  rw [h]
  exact ⟨n, rfl⟩

theorem validateSingular_ok_char {a : Attribute} {i : Value} {mode : validationMode}
    {r : CoreAttributes} (h : validateSingular a i mode = .ok r) :
    r = [] ∨ (r = [(a.Name, CAValue.raw i)] ∧ mode ≠ .read ∧
      (a.Returned = .always ∨ a.Returned = .default) ∧ typeShapeOK a i) := by
  rw [validateSingular_unfold] at h
  split_ifs at h with h1 h2
  · simp only [Except.ok.injEq] at h
    exact Or.inl h.symm
  · split at h
    all_goals try simp at h
    -- boolean
    · rename_i x0 i0 b heq
      rcases emitSingular_ok_char h with h' | ⟨h', hm, hr⟩
      · exact Or.inl h'
      · exact Or.inr ⟨h', hm, hr, typeShapeOK_boolean heq b⟩
    -- complex
    · rename_i i1 x0 i0 heq
      cases hsub : attributesValidate a.SubAttributes i1 mode <;> rw [hsub] at h
      · simp at h
      · rcases emitSingular_ok_char h with h' | ⟨h', hm, hr⟩
        · exact Or.inl h'
        · obtain ⟨fs, hfs, _⟩ := attributesValidate_ok_obj hsub
          subst hfs
          exact Or.inr ⟨h', hm, hr, typeShapeOK_complex heq fs⟩
    -- string
    · rename_i x0 i0 s heq
      rcases emitSingular_ok_char h with h' | ⟨h', hm, hr⟩
      · exact Or.inl h'
      · exact Or.inr ⟨h', hm, hr, typeShapeOK_string heq s⟩
    -- reference
    · rename_i x0 i0 s heq
      rcases emitSingular_ok_char h with h' | ⟨h', hm, hr⟩
      · exact Or.inl h'
      · exact Or.inr ⟨h', hm, hr, typeShapeOK_reference heq s⟩
    -- integer
    · rename_i x0 i0 n heq
      split_ifs at h with hc
      rcases emitSingular_ok_char h with h' | ⟨h', hm, hr⟩
      · exact Or.inl h'
      · exact Or.inr ⟨h', hm, hr, typeShapeOK_integer heq n⟩

theorem validateSingular_empty_write {a : Attribute} {i : Value}
    (h : validateSingular a i .write = .ok []) :
    a.Returned ≠ .always ∧ a.Returned ≠ .default := by
  rw [validateSingular_unfold,
    if_neg (show ¬(validationMode.write = .replace ∧ a.Mutability = .immutable) from by simp),
    if_neg (show ¬(validationMode.write = .replace ∧ a.Mutability = .readOnly) from by simp)] at h
  · split at h
    all_goals try simp at h
    · exact emitSingular_empty_char h (by simp)
    · rename_i i1 x0 i0 heq
      cases hsub : attributesValidate a.SubAttributes i1 .write <;> rw [hsub] at h
      · simp at h
      · exact emitSingular_empty_char h (by simp)
    · exact emitSingular_empty_char h (by simp)
    · exact emitSingular_empty_char h (by simp)
    · split_ifs at h with hc
      exact emitSingular_empty_char h (by simp)

theorem attributeValidate_null (a : Attribute) (mode : validationMode) :
    attributeValidate a .null mode =
      if a.Required then .error (.requiredFieldMissing (strToLower a.Name)) else .ok [] := by
  rw [attributeValidate.eq_def]
  simp only [Value.isNull]
  split_ifs <;> simp_all

theorem validateElems_forall2 {a : Attribute} {elems : List Value} {mode : validationMode}
    {cas : List CoreAttributes} (h : validateElems a elems mode = .ok cas) :
    List.Forall₂ (fun e ca => validateSingular a e mode = .ok ca) elems cas := by
  induction elems generalizing cas with
  | nil =>
    simp only [validateElems, Except.ok.injEq] at h
    rw [← h]
    exact List.Forall₂.nil
  | cons x rest ih =>
    simp only [validateElems] at h
    cases hx : validateSingular a x mode <;> rw [hx] at h
    · simp at h
    · cases hr : validateElems a rest mode <;> rw [hr] at h
      · simp at h
      · simp only [Except.ok.injEq] at h
        rw [← h]
        exact List.Forall₂.cons hx (ih hr)

theorem attributeValidate_ok_char {a : Attribute} {i : Value} {mode : validationMode}
    {r : CoreAttributes} (h : attributeValidate a i mode = .ok r) :
    r = [] ∨
    (a.MultiValued = true ∧ mode ≠ .read ∧ ∃ elems cas, i = .arr elems ∧
      r = [(a.Name, CAValue.seq cas)] ∧
      List.Forall₂ (fun e ca => validateSingular a e mode = .ok ca) elems cas) ∨
    (a.MultiValued = false ∧ i.isNull = false ∧ r = [(a.Name, CAValue.raw i)] ∧
      mode ≠ .read ∧ (a.Returned = .always ∨ a.Returned = .default) ∧ typeShapeOK a i) := by
  rw [attributeValidate.eq_def] at h
  by_cases hnull : i.isNull = true
  · rw [if_pos hnull] at h
    by_cases hreq : a.Required = true
    · rw [if_pos hreq] at h
      simp at h
    · rw [if_neg hreq] at h
      simp only [Except.ok.injEq] at h
      exact Or.inl h.symm
  · rw [if_neg hnull] at h
    by_cases hmv : a.MultiValued = true
    · rw [if_pos hmv] at h
      split at h
      · rename_i elems
        by_cases hempty : (elems.length = 0 ∧ a.Required = true)
        · rw [if_pos hempty] at h
          simp at h
        · rw [if_neg hempty] at h
          cases hel : validateElems a elems mode <;> rw [hel] at h <;> dsimp only at h
          · simp at h
          · rename_i cas
            by_cases hmode : mode ≠ .read
            · rw [if_pos hmode] at h
              simp only [Except.ok.injEq] at h
              exact Or.inr (Or.inl ⟨hmv, hmode, elems, cas, rfl, h.symm,
                validateElems_forall2 hel⟩)
            · rw [if_neg hmode] at h
              simp only [Except.ok.injEq] at h
              exact Or.inl h.symm
      · simp at h
    · rw [if_neg hmv] at h
      rcases validateSingular_ok_char h with h' | ⟨h', hm, hr, hts⟩
      · exact Or.inl h'
      · exact Or.inr (Or.inr ⟨by simpa using hmv, by simpa using hnull, h', hm, hr, hts⟩)

theorem attrStep_ok_char {a : Attribute} {c : List (String × Value)} {mode : validationMode}
    {r : CoreAttributes} (h : attrStep a c mode = .ok r) :
    ∃ hit, findHit c a.Name = .ok hit ∧ attributeValidate a hit mode = .ok r := by
  unfold attrStep at h
  cases hf : findHit c a.Name <;> rw [hf] at h
  · simp at h
  · exact ⟨_, rfl, h⟩

theorem attributesLoop_cons (a : Attribute) (rest : List Attribute)
    (c : List (String × Value)) (mode : validationMode) (acc : CoreAttributes) :
    attributesLoop (a :: rest) c mode acc =
      match attrStep a c mode with
      | .error e => .error e
      | .ok r => attributesLoop rest c mode (if mode ≠ .read then mergeCA acc r else acc) := by
  simp only [attributesLoop]
  unfold attrStep
  cases hf : findHit c a.Name with
  | error e => rfl
  | ok hit => cases hv : attributeValidate a hit mode <;> rfl

theorem attributesLoop_append (as1 as2 : List Attribute) (c : List (String × Value))
    (mode : validationMode) (acc : CoreAttributes) :
    attributesLoop (as1 ++ as2) c mode acc =
      match attributesLoop as1 c mode acc with
      | .error e => .error e
      | .ok acc' => attributesLoop as2 c mode acc' := by
  induction as1 generalizing acc with
  | nil => simp only [List.nil_append, attributesLoop]
  | cons a rest ih =>
    rw [List.cons_append, attributesLoop_cons, attributesLoop_cons]
    cases attrStep a c mode with
    | error e => rfl
    | ok r => exact ih _

theorem attributesLoop_ok_steps {as : List Attribute} {c : List (String × Value)}
    {mode : validationMode} {acc M : CoreAttributes}
    (h : attributesLoop as c mode acc = .ok M) :
    ∀ a ∈ as, ∃ r, attrStep a c mode = .ok r := by
  induction as generalizing acc with
  | nil => intro a ha; exact absurd ha (List.not_mem_nil a)
  | cons a rest ih =>
    rw [attributesLoop_cons] at h
    cases hs : attrStep a c mode <;> rw [hs] at h
    · simp at h
    · intro b hb
      rcases List.mem_cons.mp hb with hb | hb
      · exact ⟨_, hb ▸ hs⟩
      · exact ih h b hb

theorem attributesLoop_ok_mem {as : List Attribute} {c : List (String × Value)}
    {mode : validationMode} {acc M : CoreAttributes}
    (h : attributesLoop as c mode acc = .ok M) :
    ∀ kv ∈ M, kv ∈ acc ∨ ∃ b ∈ as, ∃ r, attrStep b c mode = .ok r ∧ kv ∈ r := by
  induction as generalizing acc with
  | nil =>
    simp only [attributesLoop, Except.ok.injEq] at h
    intro kv hkv
    exact Or.inl (h ▸ hkv)
  | cons a rest ih =>
    rw [attributesLoop_cons] at h
    cases hs : attrStep a c mode <;> rw [hs] at h
    · simp at h
    · rename_i r
      intro kv hkv
      rcases ih h kv hkv with hin | ⟨b, hb, r', hr', hkv'⟩
      · by_cases hmode : mode ≠ .read
        · rw [if_pos hmode] at hin
          rcases mem_mergeCA hin with hin | hin
          · exact Or.inl hin
          · exact Or.inr ⟨a, List.mem_cons_self _ _, r, hs, hin⟩
        · rw [if_neg hmode] at hin
          exact Or.inl hin
      · exact Or.inr ⟨b, List.mem_cons_of_mem _ hb, r', hr', hkv'⟩

theorem emitSingular_isOk (a : Attribute) (i : Value) (mode : validationMode) :
    ∃ r, emitSingular a i mode = .ok r := by
  unfold emitSingular
  split_ifs
  · exact ⟨_, rfl⟩
  · exact ⟨_, rfl⟩

theorem forall2_mem_right {α β : Type} {R : α → β → Prop} {l1 : List α} {l2 : List β}
    (h : List.Forall₂ R l1 l2) : ∀ b ∈ l2, ∃ a ∈ l1, R a b := by
  induction h with
  | nil => intro b hb; exact absurd hb (List.not_mem_nil b)
  | cons hR _ ih =>
    intro b hb
    rcases List.mem_cons.mp hb with hb | hb
    · exact ⟨_, List.mem_cons_self _ _, hb ▸ hR⟩
    · obtain ⟨x, hx, hxb⟩ := ih b hb
      exact ⟨x, List.mem_cons_of_mem _ hx, hxb⟩

theorem caLookup_some_mem {m : CoreAttributes} {k : String} {v : CAValue}
    (h : caLookup m k = Option.some v) : (k, v) ∈ m := by
  induction m with
  | nil => simp [caLookup] at h
  | cons kv rest ih =>
    cases kv with
    | mk k' v' =>
      simp only [caLookup] at h
      by_cases he : k' = k
      · rw [if_pos he] at h
        simp only [Option.some.injEq] at h
        rw [← he, ← h]
        exact List.mem_cons_self _ _
      · rw [if_neg he] at h
        exact List.mem_cons_of_mem _ (ih h)

/-- C10: for an attribute whose declared type is decimal, dateTime or binary,
any present singular value fails with the unsupported-type error in every
mode, except that in replace mode the mutability gate returns first: an
immutable attribute errors as ImmutableFieldModified, a readOnly attribute
succeeds with no output; the type is never actually validated or emitted. -/
theorem c10_unimplemented_types (a : Attribute) (i : Value) (mode : validationMode)
    (ht : a.Typ = .decimal ∨ a.Typ = .dateTime ∨ a.Typ = .binary) :
    (¬(mode = .replace ∧ (a.Mutability = .readOnly ∨ a.Mutability = .immutable)) →
      validateSingular a i mode = .error .unsupportedType) ∧
    (mode = .replace → a.Mutability = .immutable →
      validateSingular a i mode = .error (.immutableFieldModified a.Name)) ∧
    (mode = .replace → a.Mutability = .readOnly →
      validateSingular a i mode = .ok []) := by
  refine ⟨?_, ?_, ?_⟩
  · intro hg
    rw [validateSingular_unfold,
      if_neg (fun hc => hg ⟨hc.1, Or.inr hc.2⟩),
      if_neg (fun hc => hg ⟨hc.1, Or.inl hc.2⟩)]
    rcases ht with ht | ht | ht <;> rw [ht]
  · intro hmode himm
    rw [validateSingular_unfold, if_pos ⟨hmode, himm⟩]
  · intro hmode hro
    rw [validateSingular_unfold,
      if_neg (fun hc => by rw [hro] at hc; exact absurd hc.2 (by simp)),
      if_pos ⟨hmode, hro⟩]

/-- C10 witness at concrete inputs. -/
theorem c10_witness :
    validateSingular decimalAttr (.str "x") .write = .error .unsupportedType ∧
    validateSingular decimalImmutableAttr (.str "x") .replace
      = .error (.immutableFieldModified "d") ∧
    validateSingular decimalReadOnlyAttr (.str "x") .replace = .ok [] :=
  ⟨(c10_unimplemented_types decimalAttr (.str "x") .write (Or.inl rfl)).1 (by simp),
   (c10_unimplemented_types decimalImmutableAttr (.str "x") .replace (Or.inl rfl)).2.1 rfl rfl,
   (c10_unimplemented_types decimalReadOnlyAttr (.str "x") .replace (Or.inl rfl)).2.2 rfl rfl⟩

/-- C6: an immutable attribute rejects any present singular value in replace
mode with ImmutableFieldModified, even when the value is unchanged (the gate
never inspects the value), while the identical value in write mode succeeds
provided it passes the type check. -/
theorem c6_immutable_replace (a : Attribute) (i : Value)
    (him : a.Mutability = .immutable) :
    validateSingular a i .replace = .error (.immutableFieldModified a.Name) ∧
    (singularTypeOK a i .write → ∃ r, validateSingular a i .write = .ok r) := by
  constructor
  · rw [validateSingular_unfold, if_pos ⟨rfl, him⟩]
  · intro hst
    rw [validateSingular_unfold,
      if_neg (show ¬(validationMode.write = .replace ∧ a.Mutability = .immutable) from by simp),
      if_neg (show ¬(validationMode.write = .replace ∧ a.Mutability = .readOnly) from by simp)]
    unfold singularTypeOK at hst
    cases hT : a.Typ <;> rw [hT] at hst
    · exact absurd hst (by simp)
    · obtain ⟨b, rfl⟩ := hst
      exact emitSingular_isOk a _ .write
    · obtain ⟨S, hS⟩ := hst
      dsimp only
      rw [hS]
      exact emitSingular_isOk a _ .write
    · exact absurd hst (by simp)
    · exact absurd hst (by simp)
    · obtain ⟨n, rfl, hd, he⟩ := hst
      dsimp only
      rw [if_neg (by simp [hd, he])]
      exact emitSingular_isOk a _ .write
    · obtain ⟨s, rfl⟩ := hst
      exact emitSingular_isOk a _ .write
    · obtain ⟨s, rfl⟩ := hst
      exact emitSingular_isOk a _ .write

/-- C6 witness at a concrete immutable string attribute and value. -/
theorem c6_witness :
    validateSingular immutableAttr (.str "x") .replace
      = .error (.immutableFieldModified "m") ∧
    ∃ r, validateSingular immutableAttr (.str "x") .write = .ok r :=
  ⟨(c6_immutable_replace immutableAttr (.str "x") rfl).1,
   (c6_immutable_replace immutableAttr (.str "x") rfl).2 ⟨"x", rfl⟩⟩

/-- C4 counterexample: the integer check only looks for a lowercase exponent
marker, so the literal "1E2" (uppercase exponent) is accepted by the type
check and emitted, contradicting the claim that an exponent marker in either
letter case is rejected. -/
theorem c4_counterexample :
    validateSingular intAttr (.num "1E2") .write
      = .ok [("n", CAValue.raw (.num "1E2"))] := by
  simp [validateSingular_unfold, emitSingular, intAttr, mkAttr, Attribute.Name,
    Attribute.Typ, Attribute.Mutability, Attribute.Returned, strContainsChar]

/-- C4 amended: for an integer-typed attribute given a present numeric value
in write mode, the type check succeeds if and only if the textual form of the
literal contains no decimal point and no lowercase exponent marker 'e' (an
uppercase 'E' is not checked); "1" and "-42" are accepted while "1.5" and
"1e2" are rejected as a TypeMismatch error. -/
theorem c4_integer_literal_check (a : Attribute) (s : String) (ht : a.Typ = .integer) :
    validateSingular a (.num s) .write =
      (if strContainsChar s '.' ∨ strContainsChar s 'e' then .error .typeMismatch
       else emitSingular a (.num s) .write) ∧
    ((∃ r, validateSingular a (.num s) .write = .ok r) ↔
      (strContainsChar s '.' = false ∧ strContainsChar s 'e' = false)) := by
  have heq : validateSingular a (.num s) .write =
      (if strContainsChar s '.' ∨ strContainsChar s 'e' then .error .typeMismatch
       else emitSingular a (.num s) .write) := by
    rw [validateSingular_unfold,
      if_neg (show ¬(validationMode.write = .replace ∧ a.Mutability = .immutable) from by simp),
      if_neg (show ¬(validationMode.write = .replace ∧ a.Mutability = .readOnly) from by simp),
      ht]
  refine ⟨heq, ?_, ?_⟩
  · rintro ⟨r, hr⟩
    rw [heq] at hr
    by_cases hc : (strContainsChar s '.' = true ∨ strContainsChar s 'e' = true)
    · rw [if_pos hc] at hr
      simp at hr
    · push_neg at hc
      constructor
      · simpa using hc.1
      · simpa using hc.2
  · rintro ⟨hd, he⟩
    rw [heq, if_neg (by simp [hd, he])]
    exact emitSingular_isOk a _ .write

/-- C4 witness: the amended rule evaluated at "1", "-42", "1.5" and "1e2". -/
theorem c4_witness :
    (∃ r, validateSingular intAttr (.num "1") .write = .ok r) ∧
    (∃ r, validateSingular intAttr (.num "-42") .write = .ok r) ∧
    ¬(∃ r, validateSingular intAttr (.num "1.5") .write = .ok r) ∧
    ¬(∃ r, validateSingular intAttr (.num "1e2") .write = .ok r) :=
  ⟨(c4_integer_literal_check intAttr "1" rfl).2.mpr (by decide),
   (c4_integer_literal_check intAttr "-42" rfl).2.mpr (by decide),
   fun hex => absurd ((c4_integer_literal_check intAttr "1.5" rfl).2.mp hex) (by decide),
   fun hex => absurd ((c4_integer_literal_check intAttr "1e2" rfl).2.mp hex) (by decide)⟩

/-- C5 counterexample: a non-Required multi-valued attribute given the empty
array succeeds, but the returned mapping does contain a key for it (bound to
an empty sequence), contradicting the claim that no key is emitted. -/
theorem c5_counterexample :
    attributesValidate [optMultiAttr] (.obj [("a", .arr [])]) .write
      = .ok [("a", CAValue.seq [])] ∧
    caLookup [("a", CAValue.seq [])] "a" = Option.some (CAValue.seq []) := by
  constructor
  · simp [attributesValidate, attributesLoop, attributeValidate, validateElems,
      findHit, scanHit, mergeCA, caInsert, attrStep, optMultiAttr, mkAttr,
      Attribute.Name, Attribute.MultiValued, Attribute.Required, Value.isNull,
      eqFold, strToLower]
  · simp [caLookup]

/-- C5 amended: a multi-valued attribute given the empty array fails with
EmptyRequiredArray when Required (in every mode); when not Required it
succeeds, and outside read mode the returned mapping binds the attribute's
name to the empty sequence (in read mode no key is emitted). -/
theorem c5_empty_array (a : Attribute) (mode : validationMode) (hm : a.MultiValued = true) :
    (a.Required = true → attributeValidate a (.arr []) mode = .error .emptyRequiredArray) ∧
    (a.Required = false → attributeValidate a (.arr []) mode =
      .ok (if mode ≠ .read then [(a.Name, CAValue.seq [])] else [])) := by
  constructor <;> intro hreq <;>
    rw [attributeValidate.eq_def] <;>
    simp [Value.isNull, hm, hreq, validateElems] <;>
    split <;> rfl

/-- C5 witness: the empty array at a required and at an optional multi-valued
attribute in write mode. -/
theorem c5_witness :
    attributeValidate reqMultiAttr (.arr []) .write = .error .emptyRequiredArray ∧
    attributeValidate optMultiAttr (.arr []) .write = .ok [("a", CAValue.seq [])] :=
  ⟨(c5_empty_array reqMultiAttr .write rfl).1 rfl,
   by
    have h := (c5_empty_array optMultiAttr .write rfl).2 rfl
    simpa using h⟩

/-- C1 counterexample: a multi-valued attribute with Returned = never, given a
non-empty array in write mode, does contribute its key to the output of
validate() (bound to a sequence of empty mappings), contradicting the claim
that a never-returned attribute contributes no key in any mode. -/
theorem c1_counterexample :
    attributesValidate [neverMultiAttr] (.obj [("a", .arr [.str "x"])]) .write
      = .ok [("a", CAValue.seq [[]])] ∧
    caLookup [("a", CAValue.seq [[]])] "a" = Option.some (CAValue.seq [[]]) := by
  constructor
  · simp [attributesValidate, attributesLoop, attributeValidate, validateSingular_unfold,
      validateElems, findHit, scanHit, emitSingular, mergeCA, caInsert, attrStep,
      neverMultiAttr, mkAttr, Attribute.Name, Attribute.Typ, Attribute.MultiValued,
      Attribute.Required, Attribute.Mutability, Attribute.Returned, Value.isNull,
      eqFold, strToLower]
  · simp [caLookup]

/-- C1 amended: an attribute with Returned = never contributes no key whenever
it is not MultiValued; when it is MultiValued and validation succeeds outside
read mode, its key is emitted, but bound to a sequence of empty mappings (the
element values themselves are always filtered out). -/
theorem c1_returned_never (a : Attribute) (i : Value) (mode : validationMode)
    (r : CoreAttributes) (hret : a.Returned = .never)
    (h : attributeValidate a i mode = .ok r) :
    (a.MultiValued = false → r = []) ∧
    (r = [] ∨ (a.MultiValued = true ∧ mode ≠ .read ∧
      ∃ cas, r = [(a.Name, CAValue.seq cas)] ∧ ∀ e ∈ cas, e = [])) := by
  have key : r = [] ∨ (a.MultiValued = true ∧ mode ≠ .read ∧
      ∃ cas, r = [(a.Name, CAValue.seq cas)] ∧ ∀ e ∈ cas, e = []) := by
    rcases attributeValidate_ok_char h with h' | ⟨hmv, hmode, elems, cas, _, hr, hf⟩ |
        ⟨_, _, _, _, hr, _⟩
    · exact Or.inl h'
    · refine Or.inr ⟨hmv, hmode, cas, hr, ?_⟩
      intro e he
      obtain ⟨x, _, hx⟩ := forall2_mem_right hf e he
      rcases validateSingular_ok_char hx with h'' | ⟨_, _, hrret, _⟩
      · exact h''
      · rw [hret] at hrret
        rcases hrret with hrret | hrret <;> exact absurd hrret (by simp)
    · rw [hret] at hr
      rcases hr with hr | hr <;> exact absurd hr (by simp)
  constructor
  · intro hmv
    rcases key with key | ⟨hmv', _⟩
    · exact key
    · rw [hmv] at hmv'
      exact absurd hmv' (by simp)
  · exact key

/-- C1 witness: the amended rule applied to a singular never-returned
attribute with a present value, and to the multi-valued counterexample
output. -/
theorem c1_witness :
    (∀ r, attributeValidate neverRequiredAttr (.str "x") .write = .ok r → r = []) ∧
    (∀ e ∈ [([] : CoreAttributes)], e = ([] : CoreAttributes)) := by
  constructor
  · intro r hr
    exact (c1_returned_never neverRequiredAttr (.str "x") .write r rfl hr).1 rfl
  · intro e he
    have hav : attributeValidate neverMultiAttr (.arr [.str "x"]) .write
        = .ok [("a", CAValue.seq [[]])] := by
      simp [attributeValidate, validateSingular_unfold, validateElems, emitSingular,
        neverMultiAttr, mkAttr, Attribute.Name, Attribute.Typ, Attribute.MultiValued,
        Attribute.Required, Attribute.Mutability, Attribute.Returned, Value.isNull]
    rcases (c1_returned_never neverMultiAttr (.arr [.str "x"]) .write
        [("a", CAValue.seq [[]])] rfl hav).2 with hempty | ⟨_, _, cas, hcas, hall⟩
    · exact absurd hempty (by simp)
    · have : cas = [[]] := by
        simp only [List.cons.injEq, Prod.mk.injEq, CAValue.seq.injEq, and_true,
          true_and] at hcas
        exact hcas.2.symm
      exact hall e (this ▸ he)

theorem attributesValidate_obj (as : List Attribute) (c : List (String × Value))
    (mode : validationMode) :
    attributesValidate as (.obj c) mode = attributesLoop as c mode [] := by
  simp only [attributesValidate]

/-- C7: a Required attribute with no case-insensitive key match in the input
object yields the RequiredFieldMissing error in every mode (the whole call can
never succeed, and the per-attribute step fails with exactly that error); a
non-Required attribute with the same absence validates to success and emits no
key for that attribute in the final mapping. -/
theorem c7_required_missing (as : List Attribute) (c : List (String × Value))
    (mode : validationMode) (a : Attribute) (ha : a ∈ as)
    (hnm : ∀ p ∈ c, eqFold a.Name p.1 = false) :
    (a.Required = true → ∀ M, attributesValidate as (.obj c) mode ≠ .ok M) ∧
    (a.Required = true → attributeValidate a .null mode
      = .error (.requiredFieldMissing (strToLower a.Name))) ∧
    (a.Required = false → attributeValidate a .null mode = .ok []) ∧
    (a.Required = false → ∀ M, attributesValidate as (.obj c) mode = .ok M →
      caLookup M a.Name = Option.none) := by
  refine ⟨?_, ?_, ?_, ?_⟩
  · intro hreq M hok
    rw [attributesValidate_obj] at hok
    obtain ⟨r, hstep⟩ := attributesLoop_ok_steps hok a ha
    obtain ⟨hit, hf, hav⟩ := attrStep_ok_char hstep
    have hn : hit = .null := by
      rw [findHit_none hnm] at hf
      simp only [Except.ok.injEq] at hf
      exact hf.symm
    rw [hn, attributeValidate_null, if_pos hreq] at hav
    simp at hav
  · intro hreq
    rw [attributeValidate_null, if_pos hreq]
  · intro hreq
    rw [attributeValidate_null, if_neg (by simp [hreq])]
  · intro hreq M hok
    cases hl : caLookup M a.Name with
    | none => rfl
    | some v =>
      exfalso
      rw [attributesValidate_obj] at hok
      rcases attributesLoop_ok_mem hok _ (caLookup_some_mem hl) with hacc |
          ⟨b, hb, r, hstep, hmem⟩
      · exact absurd hacc (List.not_mem_nil _)
      · obtain ⟨hit, hf, hav⟩ := attrStep_ok_char hstep
        have hbname : b.Name = a.Name ∧ hit.isNull = false := by
          rcases attributeValidate_ok_char hav with hr0 |
              ⟨_, _, elems, cas, hi, hr, _⟩ | ⟨_, hnn, hr, _⟩
          · rw [hr0] at hmem
            exact absurd hmem (List.not_mem_nil _)
          · rw [hr] at hmem
            rcases List.mem_singleton.mp hmem with heq
            refine ⟨(congrArg Prod.fst heq).symm, ?_⟩
            rw [hi]
            rfl
          · rw [hr] at hmem
            rcases List.mem_singleton.mp hmem with heq
            exact ⟨(congrArg Prod.fst heq).symm, hnn⟩
        rcases findHit_ok_prov hf with hn | ⟨p, hp, hm, _⟩
        · rw [hn] at hbname
          simp [Value.isNull] at hbname
        · rw [hbname.1] at hm
          rw [hnm p hp] at hm
          exact Bool.noConfusion hm

/-- C7 witness: the required userName attribute at an input whose only key
does not match, and the null-hit behaviour. -/
theorem c7_witness :
    attributeValidate userNameAttr .null .write
      = .error (.requiredFieldMissing "username") ∧
    attributesValidate [userNameAttr] (.obj [("other", .str "x")]) .write ≠ .ok [] :=
  ⟨(c7_required_missing [userNameAttr] [("other", .str "x")] .write userNameAttr
      (List.mem_singleton.mpr rfl) (by decide)).2.1 rfl,
   (c7_required_missing [userNameAttr] [("other", .str "x")] .write userNameAttr
      (List.mem_singleton.mpr rfl) (by decide)).1 rfl []⟩

/-- C8: when two or more input keys case-insensitively match one declared
attribute's name, structural validation can never succeed, whatever the
values under those keys; when that attribute is reached (here: heads the
list), the whole call fails with exactly the DuplicateKey error produced by
the key scan. -/
theorem c8_duplicate_keys (as rest : List Attribute) (c : List (String × Value))
    (mode : validationMode) (a : Attribute) (hdup : 2 ≤ countMatches c a.Name) :
    (a ∈ as → ∀ M, attributesValidate as (.obj c) mode ≠ .ok M) ∧
    (∃ k, findHit c a.Name = .error (.duplicateKey k) ∧
      attributesValidate (a :: rest) (.obj c) mode = .error (.duplicateKey k)) := by
  obtain ⟨k, hk⟩ := findHit_dup hdup
  constructor
  · intro ha M hok
    rw [attributesValidate_obj] at hok
    obtain ⟨r, hstep⟩ := attributesLoop_ok_steps hok a ha
    unfold attrStep at hstep
    rw [hk] at hstep
    simp at hstep
  · refine ⟨k, hk, ?_⟩
    rw [attributesValidate_obj, attributesLoop_cons]
    unfold attrStep
    rw [hk]

/-- C8 witness: userName and USERNAME both present is a DuplicateKey failure
regardless of values. -/
theorem c8_witness :
    attributesValidate [userNameAttr]
      (.obj [("userName", .str "a"), ("USERNAME", .str "b")]) .write
      = .error (.duplicateKey "username") := by
  obtain ⟨k, hk1, hk2⟩ := (c8_duplicate_keys [userNameAttr] []
    [("userName", .str "a"), ("USERNAME", .str "b")] .write userNameAttr (by decide)).2
  have hev : findHit [("userName", .str "a"), ("USERNAME", .str "b")] userNameAttr.Name
      = .error (.duplicateKey "username") := rfl
  rw [hev] at hk1
  simp only [Except.error.injEq, ValidationError.duplicateKey.injEq] at hk1
  subst hk1
  exact hk2

/-- C9: validate() is all-or-nothing: if a prefix of the declared attributes
validates successfully and the next attribute's step (key scan plus attribute
validation) fails with an error, the entire call returns exactly that first
error, with no partial mapping (the error constructor carries no collected
values, matching the code's `return CoreAttributes\x7b\x7d, err`). -/
theorem c9_first_error_aborts (as1 : List Attribute) (a : Attribute) (as2 : List Attribute)
    (c : List (String × Value)) (mode : validationMode) (M1 : CoreAttributes)
    (e : ValidationError) (h1 : attributesValidate as1 (.obj c) mode = .ok M1)
    (h2 : attrStep a c mode = .error e) :
    attributesValidate (as1 ++ a :: as2) (.obj c) mode = .error e := by
  rw [attributesValidate_obj] at h1
  rw [attributesValidate_obj, attributesLoop_append, h1]
  show attributesLoop (a :: as2) c mode M1 = .error e
  rw [attributesLoop_cons, h2]

/-- C9 witness: a two-attribute schema where the first attribute succeeds and
the second fails the integer type check; the call returns the second error. -/
theorem c9_witness :
    attributesValidate [userNameAttr, intAttr]
      (.obj [("userName", .str "alice"), ("n", .str "x")]) .write
      = .error .typeMismatch := by
  have h1 : attributesValidate [userNameAttr]
      (.obj [("userName", .str "alice"), ("n", .str "x")]) .write
      = .ok [("userName", CAValue.raw (.str "alice"))] := by
    simp [attributesValidate, attributesLoop, attributeValidate, validateSingular_unfold,
      emitSingular, findHit, scanHit, mergeCA, caInsert, userNameAttr, mkAttr,
      Attribute.Name, Attribute.Typ, Attribute.MultiValued, Attribute.Required,
      Attribute.Mutability, Attribute.Returned, Value.isNull, eqFold, strToLower]
  have h2 : attrStep intAttr [("userName", .str "alice"), ("n", .str "x")] .write
      = .error .typeMismatch := by
    simp [attrStep, findHit, scanHit, attributeValidate, validateSingular_unfold,
      intAttr, mkAttr, Attribute.Name, Attribute.Typ, Attribute.MultiValued,
      Attribute.Mutability, Value.isNull, eqFold, strToLower]
  exact c9_first_error_aborts [userNameAttr] intAttr [] _ .write _ .typeMismatch h1 h2

/-- C3 counterexample: for a singular complex attribute the value stored in
the output is the raw input object, not the filtered projection obtained by
recursively validating the sub-attributes: here the sub-attribute "b" has
Returned = never, so the recursive projection is empty, yet the stored value
still contains the raw "b" binding. -/
theorem c3_counterexample :
    attributesValidate [complexAttr] (.obj [("c", .obj [("b", .str "x")])]) .write
      = .ok [("c", CAValue.raw (.obj [("b", .str "x")]))] ∧
    attributesValidate complexAttr.SubAttributes (.obj [("b", .str "x")]) .write
      = .ok [] := by
  constructor <;>
    simp [attributesValidate, attributesLoop, attributeValidate, validateSingular_unfold,
      emitSingular, findHit, scanHit, mergeCA, caInsert, complexAttr, mkAttr,
      Attribute.Name, Attribute.Typ, Attribute.SubAttributes, Attribute.MultiValued,
      Attribute.Required, Attribute.Mutability, Attribute.Returned, Value.isNull,
      eqFold, strToLower]

/-- C3 amended: every binding of a successful validate() result belongs to a
declared attribute of the same name, and its value mirrors that attribute as
the code actually stores it: a multi-valued attribute stores an ordered
sequence of per-element mappings, each empty or the singleton binding of the
attribute's name to the raw element; a singular attribute stores the raw
input value, whose shape matches the declared type (bool for boolean, string
for string/reference, number literal for integer, and for complex the raw
input object, not the filtered recursive projection). -/
theorem c3_output_shapes (as : List Attribute) (c : List (String × Value))
    (mode : validationMode) (M : CoreAttributes)
    (h : attributesValidate as (.obj c) mode = .ok M) :
    ∀ kv ∈ M, ∃ b ∈ as, b.Name = kv.1 ∧ valueShape b kv.2 := by
  intro kv hkv
  rw [attributesValidate_obj] at h
  rcases attributesLoop_ok_mem h kv hkv with hacc | ⟨b, hb, r, hstep, hmem⟩
  · exact absurd hacc (List.not_mem_nil _)
  · obtain ⟨hit, hf, hav⟩ := attrStep_ok_char hstep
    rcases attributeValidate_ok_char hav with hr0 |
        ⟨hmv, hmode, elems, cas, hi, hr, hforall⟩ | ⟨hmv, _, hr, _, _, hts⟩
    · rw [hr0] at hmem
      exact absurd hmem (List.not_mem_nil _)
    · rw [hr] at hmem
      have heq := List.mem_singleton.mp hmem
      refine ⟨b, hb, (congrArg Prod.fst heq).symm, ?_⟩
      rw [show kv.2 = CAValue.seq cas from congrArg Prod.snd heq]
      refine Or.inl ⟨hmv, cas, rfl, ?_⟩
      intro e he
      obtain ⟨x, _, hx⟩ := forall2_mem_right hforall e he
      rcases validateSingular_ok_char hx with h'' | ⟨h'', _, _, _⟩
      · exact Or.inl h''
      · exact Or.inr ⟨x, h''⟩
    · rw [hr] at hmem
      have heq := List.mem_singleton.mp hmem
      refine ⟨b, hb, (congrArg Prod.fst heq).symm, ?_⟩
      rw [show kv.2 = CAValue.raw hit from congrArg Prod.snd heq]
      exact Or.inr ⟨hmv, hit, rfl, hts⟩

/-- C3 witness: the shape invariant at the spec's concrete userName scenario. -/
theorem c3_witness :
    ∃ b ∈ [userNameAttr], b.Name = "userName" ∧
      valueShape b (CAValue.raw (.str "alice")) := by
  have h : attributesValidate [userNameAttr] (.obj [("userName", .str "alice")]) .write
      = .ok [("userName", CAValue.raw (.str "alice"))] := by
    simp [attributesValidate, attributesLoop, attributeValidate, validateSingular_unfold,
      emitSingular, findHit, scanHit, mergeCA, caInsert, userNameAttr, mkAttr,
      Attribute.Name, Attribute.Typ, Attribute.MultiValued, Attribute.Required,
      Attribute.Mutability, Attribute.Returned, Value.isNull, eqFold, strToLower]
  exact c3_output_shapes [userNameAttr] [("userName", .str "alice")] .write
    [("userName", CAValue.raw (.str "alice"))] h
    ("userName", CAValue.raw (.str "alice")) (List.mem_singleton.mpr rfl)

theorem eqFold_false_symm {x y : String} (h : eqFold x y = false) : eqFold y x = false := by
  unfold eqFold at h ⊢
  cases hb : strToLower y == strToLower x
  · rfl
  · rw [beq_iff_eq] at hb
    rw [hb] at h
    rw [beq_self_eq_true] at h
    exact Bool.noConfusion h

theorem caFields_eq_map (m : CoreAttributes) :
    caFields m = m.map (fun kv => (kv.1, cavToValue kv.2)) := by
  induction m with
  | nil => rfl
  | cons kv rest ih =>
    cases kv with
    | mk k v => simp only [caFields, List.map_cons, ih]

theorem forall2_join_keys {as : List Attribute} {rs : List CoreAttributes}
    {c : List (String × Value)}
    (h : List.Forall₂ (fun a r => attrStep a c .write = .ok r ∧
      (r = [] ∨ ∃ v, r = [(a.Name, v)])) as rs) :
    ∀ kv ∈ rs.flatten, ∃ b ∈ as, kv.1 = b.Name := by
  induction h with
  | nil => intro kv hkv; exact absurd hkv (by simp)
  | cons hab htail ih =>
    rename_i a r as' rs'
    intro kv hkv
    have hkv2 : kv ∈ r ++ rs'.flatten := hkv
    rcases List.mem_append.mp hkv2 with hkv | hkv
    · rcases hab.2 with hr | ⟨v, hr⟩
      · rw [hr] at hkv
        exact absurd hkv (List.not_mem_nil _)
      · rw [hr] at hkv
        have := List.mem_singleton.mp hkv
        exact ⟨a, List.mem_cons_self _ _, congrArg Prod.fst this⟩
    · obtain ⟨b, hb, hname⟩ := ih kv hkv
      exact ⟨b, List.mem_cons_of_mem _ hb, hname⟩

theorem attributeValidate_ok_singleton {a : Attribute} {i : Value} {mode : validationMode}
    {r : CoreAttributes} (h : attributeValidate a i mode = .ok r) :
    r = [] ∨ ∃ v, r = [(a.Name, v)] := by
  rcases attributeValidate_ok_char h with h0 | ⟨_, _, _, cas, _, hr, _⟩ | ⟨_, _, hr, _⟩
  · exact Or.inl h0
  · exact Or.inr ⟨_, hr⟩
  · exact Or.inr ⟨_, hr⟩

theorem attributeValidate_write_empty {a : Attribute} {i : Value}
    (h : attributeValidate a i .write = .ok [])
    (hsing : a.MultiValued = false)
    (hreq : a.Required = true → a.Returned = .always ∨ a.Returned = .default) :
    a.Required = false := by
  rw [attributeValidate.eq_def] at h
  by_cases hnull : i.isNull = true
  · rw [if_pos hnull] at h
    by_cases hr : a.Required = true
    · rw [if_pos hr] at h
      simp at h
    · simpa using hr
  · rw [if_neg hnull, if_neg (by simp [hsing])] at h
    have hret := validateSingular_empty_write h
    by_cases hr : a.Required = true
    · rcases hreq hr with h' | h'
      · exact absurd h' hret.1
      · exact absurd h' hret.2
    · simpa using hr

theorem attributeValidate_write_single {a : Attribute} {i : Value} {v : CAValue}
    (h : attributeValidate a i .write = .ok [(a.Name, v)])
    (hsing : a.MultiValued = false) :
    v = CAValue.raw i := by
  rcases attributeValidate_ok_char h with h0 | ⟨hmv, _⟩ | ⟨_, _, hr, _⟩
  · exact absurd h0 (by simp)
  · rw [hsing] at hmv
    exact absurd hmv (by simp)
  · simp only [List.cons.injEq, Prod.mk.injEq, and_true, true_and] at hr
    exact hr

theorem pass1_structure (c : List (String × Value)) :
    ∀ (as : List Attribute) (acc M : CoreAttributes),
    List.Pairwise (fun x y => eqFold x.Name y.Name = false) as →
    (∀ a ∈ as, a.Name ∉ acc.map Prod.fst) →
    attributesLoop as c .write acc = .ok M →
    ∃ rs, List.Forall₂ (fun a r => attrStep a c .write = .ok r ∧
        (r = [] ∨ ∃ v, r = [(a.Name, v)])) as rs ∧ M = acc ++ rs.flatten := by
  intro as
  induction as with
  | nil =>
    intro acc M _ _ h
    simp only [attributesLoop, Except.ok.injEq] at h
    exact ⟨[], List.Forall₂.nil, by simp [← h]⟩
  | cons a as' ih =>
    intro acc M hdist hfresh h
    rw [attributesLoop_cons] at h
    cases hs : attrStep a c .write <;> rw [hs] at h <;> dsimp only at h
    · simp at h
    · rename_i r
      have hshape : r = [] ∨ ∃ v, r = [(a.Name, v)] := by
        obtain ⟨hit, _, hav⟩ := attrStep_ok_char hs
        exact attributeValidate_ok_singleton hav
      have hmerge : (if (validationMode.write : validationMode) ≠ .read
          then mergeCA acc r else acc) = acc ++ r := by
        rw [if_pos (by decide)]
        rcases hshape with hr | ⟨v, hr⟩
        · rw [hr, mergeCA_nil, List.append_nil]
        · rw [hr, mergeCA_single, caInsert_fresh v
            (hfresh a (List.mem_cons_self _ _))]
      rw [hmerge] at h
      have hdist' := List.pairwise_cons.mp hdist
      obtain ⟨rs', hf2, hM⟩ := ih (acc ++ r) M hdist'.2
        (by
          intro b hb
          rw [List.map_append, List.mem_append]
          rintro (hin | hin)
          · exact hfresh b (List.mem_cons_of_mem _ hb) hin
          · rcases hshape with hr | ⟨v, hr⟩
            · rw [hr] at hin
              exact absurd hin (by simp)
            · rw [hr] at hin
              simp only [List.map_cons, List.map_nil, List.mem_singleton] at hin
              exact absurd hin.symm (ne_of_eqFold_false (hdist'.1 b hb)))
        h
      exact ⟨r :: rs', List.Forall₂.cons ⟨hs, hshape⟩ hf2,
        by rw [hM, List.append_assoc, List.flatten_cons]⟩

theorem pass2_loop (fields : List (String × Value)) :
    ∀ (as : List Attribute) (rs : List CoreAttributes) (acc : CoreAttributes),
    List.Forall₂ (fun a r => (∃ hit2, findHit fields a.Name = .ok hit2 ∧
      attributeValidate a hit2 .write = .ok r) ∧ (r = [] ∨ ∃ v, r = [(a.Name, v)])) as rs →
    (∀ a ∈ as, a.Name ∉ acc.map Prod.fst) →
    List.Pairwise (fun x y => eqFold x.Name y.Name = false) as →
    attributesLoop as fields .write acc = .ok (acc ++ rs.flatten) := by
  intro as rs acc hf2
  induction hf2 generalizing acc with
  | nil =>
    intro _ _
    simp [attributesLoop]
  | cons hab htail ih =>
    rename_i a r as' rs'
    intro hfresh hdist
    obtain ⟨⟨hit2, hf, hav⟩, hshape⟩ := hab
    rw [attributesLoop_cons]
    have hstep : attrStep a fields .write = .ok r := by
      unfold attrStep
      rw [hf]
      dsimp only
      exact hav
    rw [hstep]
    dsimp only
    have hdist' := List.pairwise_cons.mp hdist
    have hmerge : (if (validationMode.write : validationMode) ≠ .read
        then mergeCA acc r else acc) = acc ++ r := by
      rw [if_pos (by decide)]
      rcases hshape with hr | ⟨v, hr⟩
      · rw [hr, mergeCA_nil, List.append_nil]
      · rw [hr, mergeCA_single, caInsert_fresh v (hfresh a (List.mem_cons_self _ _))]
    rw [hmerge]
    rw [ih (acc ++ r)
      (by
        intro b hb
        rw [List.map_append, List.mem_append]
        rintro (hin | hin)
        · exact hfresh b (List.mem_cons_of_mem _ hb) hin
        · rcases hshape with hr | ⟨v, hr⟩
          · rw [hr] at hin
            exact absurd hin (by simp)
          · rw [hr] at hin
            simp only [List.map_cons, List.map_nil, List.mem_singleton] at hin
            exact absurd hin.symm (ne_of_eqFold_false (hdist'.1 b hb)))
      hdist'.2]
    rw [List.append_assoc, List.flatten_cons]

theorem pass2_facts (c : List (String × Value)) (M : CoreAttributes)
    {as2 : List Attribute} {rs2 : List CoreAttributes}
    (hf2 : List.Forall₂ (fun a r => attrStep a c .write = .ok r ∧
      (r = [] ∨ ∃ v, r = [(a.Name, v)])) as2 rs2) :
    ∀ (pre : CoreAttributes),
    M = pre ++ rs2.flatten →
    (∀ a ∈ as2, ∀ kv ∈ pre, eqFold a.Name kv.1 = false) →
    List.Pairwise (fun x y => eqFold x.Name y.Name = false) as2 →
    (∀ a ∈ as2, a.MultiValued = false) →
    (∀ a ∈ as2, a.Required = true → a.Returned = .always ∨ a.Returned = .default) →
    List.Forall₂ (fun a r => (∃ hit2, findHit (caFields M) a.Name = .ok hit2 ∧
      attributeValidate a hit2 .write = .ok r) ∧ (r = [] ∨ ∃ v, r = [(a.Name, v)]))
      as2 rs2 := by
  induction hf2 with
  | nil =>
    intro _ _ _ _ _ _
    exact List.Forall₂.nil
  | cons hab htail ih =>
    rename_i a r as' rs'
    intro pre hM hpre hdist hsing hreq
    obtain ⟨hstep, hshape⟩ := hab
    obtain ⟨hit, hf, hav⟩ := attrStep_ok_char hstep
    have hdist' := List.pairwise_cons.mp hdist
    have hhead : ∃ hit2, findHit (caFields M) a.Name = .ok hit2 ∧
        attributeValidate a hit2 .write = .ok r := by
      rcases hshape with hr | ⟨v, hr⟩
      · subst hr
        have hnomatch : ∀ kv ∈ caFields M, eqFold a.Name kv.1 = false := by
          intro kv hkv
          rw [caFields_eq_map] at hkv
          obtain ⟨kv0, hkv0, hmap⟩ := List.mem_map.mp hkv
          have hk1 : kv.1 = kv0.1 := by rw [← hmap]
          rw [hM] at hkv0
          rcases List.mem_append.mp hkv0 with hin | hin
          · rw [hk1]
            exact hpre a (List.mem_cons_self _ _) kv0 hin
          · have hin' : kv0 ∈ rs'.flatten := hin
            obtain ⟨b, hb, hname⟩ := forall2_join_keys htail kv0 hin'
            rw [hk1, hname]
            exact hdist'.1 b hb
        refine ⟨.null, findHit_none hnomatch, ?_⟩
        have hreq0 : a.Required = false :=
          attributeValidate_write_empty hav (hsing a (List.mem_cons_self _ _))
            (hreq a (List.mem_cons_self _ _))
        rw [attributeValidate_null, if_neg (by simp [hreq0])]
      · subst hr
        have hv : v = CAValue.raw hit :=
          attributeValidate_write_single hav (hsing a (List.mem_cons_self _ _))
        have hsplit : caFields M
            = caFields pre ++ (a.Name, cavToValue v) :: caFields rs'.flatten := by
          rw [hM, caFields_eq_map, caFields_eq_map, caFields_eq_map]
          simp
        have hpre' : ∀ p ∈ caFields pre, eqFold a.Name p.1 = false := by
          intro p hp
          rw [caFields_eq_map] at hp
          obtain ⟨kv0, hkv0, hmap⟩ := List.mem_map.mp hp
          have hk1 : p.1 = kv0.1 := by rw [← hmap]
          rw [hk1]
          exact hpre a (List.mem_cons_self _ _) kv0 hkv0
        have hsuf : ∀ p ∈ caFields rs'.flatten, eqFold a.Name p.1 = false := by
          intro p hp
          rw [caFields_eq_map] at hp
          obtain ⟨kv0, hkv0, hmap⟩ := List.mem_map.mp hp
          obtain ⟨b, hb, hname⟩ := forall2_join_keys htail kv0 hkv0
          have hk1 : p.1 = kv0.1 := by rw [← hmap]
          rw [hk1, hname]
          exact hdist'.1 b hb
        refine ⟨hit, ?_, hav⟩
        rw [hsplit, hv]
        exact @findHit_one a.Name a.Name (cavToValue (CAValue.raw hit)) (caFields pre)
          (caFields rs'.flatten) hpre' (eqFold_refl a.Name) hsuf
    refine List.Forall₂.cons ⟨hhead, hshape⟩
      (ih (pre ++ r) ?_ ?_ hdist'.2
        (fun b hb => hsing b (List.mem_cons_of_mem _ hb))
        (fun b hb => hreq b (List.mem_cons_of_mem _ hb)))
    · rw [hM, List.flatten_cons, List.append_assoc]
    · intro b hb kv hkv
      rcases List.mem_append.mp hkv with hin | hin
      · exact hpre b (List.mem_cons_of_mem _ hb) kv hin
      · rcases hshape with hr | ⟨v, hr⟩
        · rw [hr] at hin
          exact absurd hin (List.not_mem_nil _)
        · rw [hr] at hin
          have heq := List.mem_singleton.mp hin
          rw [show kv.1 = a.Name from congrArg Prod.fst heq]
          exact eqFold_false_symm (hdist'.1 b hb)

/-- C2 counterexample: a schema with one required, never-returned string
attribute validates \x7b"a": "x"\x7d successfully in write mode to the empty
mapping, but re-validating that mapping (re-serialized as the empty object)
fails with RequiredFieldMissing, so the round trip neither succeeds nor
returns an equal mapping. -/
theorem c2_counterexample :
    schemaValidate neverRequiredSchema (.obj [("a", .str "x")]) .write = .ok [] ∧
    schemaValidate neverRequiredSchema (caToValue []) .write
      = .error (.requiredFieldMissing "a") := by
  constructor <;>
    simp [schemaValidate, attributesValidate, attributesLoop, attributeValidate,
      validateSingular_unfold, emitSingular, findHit, scanHit, mergeCA, caInsert,
      caToValue, caFields, neverRequiredSchema, neverRequiredAttr, mkAttr,
      Attribute.Name, Attribute.Typ, Attribute.MultiValued, Attribute.Required,
      Attribute.Mutability, Attribute.Returned, Value.isNull, eqFold, strToLower]

/-- C2 amended: the write-mode round trip holds for schemas whose attributes
have pairwise case-insensitively distinct names (the data-model invariant),
are all singular (not MultiValued), and in which every Required attribute has
Returned always or default: if validating an object succeeds with mapping M,
re-validating M re-serialized as a JSON object succeeds and returns M. (The
counterexample shows the restriction on Required attributes is necessary;
multi-valued attributes break the round trip because each emitted element is
re-wrapped under the attribute's name.) -/
theorem c2_write_roundtrip (S : schema) (c : List (String × Value)) (M : CoreAttributes)
    (hdist : distinctFold S.Attributes)
    (hsing : ∀ a ∈ S.Attributes, a.MultiValued = false)
    (hreq : ∀ a ∈ S.Attributes, a.Required = true →
      a.Returned = .always ∨ a.Returned = .default)
    (h : schemaValidate S (.obj c) .write = .ok M) :
    schemaValidate S (caToValue M) .write = .ok M := by
  unfold schemaValidate at h ⊢
  unfold distinctFold at hdist
  rw [attributesValidate_obj] at h
  obtain ⟨rs, hf2, hM⟩ := pass1_structure c S.Attributes [] M hdist (by simp) h
  rw [List.nil_append] at hM
  have hpsi := pass2_facts c M hf2 [] (by simpa using hM) (by simp) hdist hsing hreq
  rw [caToValue, attributesValidate_obj]
  have hres := pass2_loop (caFields M) S.Attributes rs [] hpsi (by simp) hdist
  rw [List.nil_append] at hres
  rw [hres, hM]

/-- C2 witness: the round trip at the spec's concrete userName scenario. -/
theorem c2_witness :
    schemaValidate userSchema (caToValue [("userName", CAValue.raw (.str "alice"))]) .write
      = .ok [("userName", CAValue.raw (.str "alice"))] := by
  have h : schemaValidate userSchema (.obj [("userName", .str "alice")]) .write
      = .ok [("userName", CAValue.raw (.str "alice"))] := by
    simp [schemaValidate, attributesValidate, attributesLoop, attributeValidate,
      validateSingular_unfold, emitSingular, findHit, scanHit, mergeCA, caInsert,
      userSchema, userNameAttr, mkAttr, Attribute.Name, Attribute.Typ,
      Attribute.MultiValued, Attribute.Required, Attribute.Mutability,
      Attribute.Returned, Value.isNull, eqFold, strToLower]
  exact c2_write_roundtrip userSchema [("userName", .str "alice")]
    [("userName", CAValue.raw (.str "alice"))]
    (by simp [distinctFold, userSchema]) (by decide) (by decide) h

end Scim
